import Mathlib

/-!
Shallow embedding of `src/attiny_slaveSynth.ino` (the sweep-capable variant,
which the claims cite; `attiny_slave_synthSquare.ino` is a strict subset of
its behaviour for the parts treated here).

Modelling conventions:
* `uint8_t` / `byte` values are `Nat` with explicit `% 256` or `&&& mask`
  wherever the C code relies on 8-bit storage.
* C `int` / `long` scalars are `Int` (no overflow is exercised by the claims).
* `float` values are modelled three ways, each used where it is exact or
  needed: the sweep / frequency arithmetic uses `ℚ` for the claims whose
  operations (comparison, equality, ±1 steps at moderate magnitude) are exact
  in IEEE-754 single precision; the `'F'` / `'S'` payload paths, which in C
  only move raw bytes through a union and never round, are modelled on the
  32-bit bit patterns themselves; and where rounding is itself the question
  (the half-period computation and the sweep step at large magnitude), the
  arithmetic is composed with `roundF32`, an executable model of IEEE-754
  binary32 round-to-nearest-ties-to-even on the normal range.
* The I²C transport is a `List Nat` of received bytes; a handler that would
  block forever waiting for a missing payload byte returns `none`.
-/

namespace SlaveSynth

/-! ### Waveform generator (TIA LFSR pair), lines 298–442 -/

/-- C `!!x` (double negation): `1` when the operand is nonzero, else `0`. -/
def nz (n : Nat) : Nat := if n = 0 then 0 else 1

/-- C `!x` (logical not on an integer): `1` when the operand is zero, else `0`. -/
def lnot (n : Nat) : Nat := if n = 0 then 1 else 0

/-- The register pair: `sr4` and `sr5` are the two `uint8_t` shift registers
(lines 21–22). -/
structure Lfsr where
  sr4 : Nat
  sr5 : Nat
deriving DecidableEq, Repr

/-- Power-on state: both registers initialised to 1 (lines 21–22). -/
def lfsrInit : Lfsr := ⟨1, 1⟩

/-- `shift4` (lines 302–306):
`sr4 = ((sr4 << 1) | (!!(sr4 & 0x08) ^ !!(sr4 & 0x04))) & 0x0F`. -/
def shift4 (s4 : Nat) : Nat :=
  ((s4 <<< 1) ||| (nz (s4 &&& 0x08) ^^^ nz (s4 &&& 0x04))) &&& 0x0F

/-- `shift5` (lines 309–313):
`sr5 = ((sr5 << 1) | (!!(sr5 & 0x10) ^ !!(sr5 & 0x04))) & 0x1F`. -/
def shift5 (s5 : Nat) : Nat :=
  ((s5 <<< 1) ||| (nz (s5 &&& 0x10) ^^^ nz (s5 &&& 0x04))) &&& 0x1F

/-- `div4_two` (lines 316–319):
`sr4 = ((sr4 << 1) | (!(sr4 & 0x01))) & 0x0F`. -/
def div4_two (s4 : Nat) : Nat :=
  ((s4 <<< 1) ||| lnot (s4 &&& 0x01)) &&& 0x0F

/-- `div4_six` (lines 322–325):
`sr4 = (~sr4 << 1) | (!(!(!(sr4 & 0x04) && ((sr4 & 0x07)))))`.
Unlike every other `sr4` update this one has no `& 0x0F`; only the implicit
conversion to `uint8_t` reduces the value mod 256.  On `int`, `~s = -s - 1`,
so `~s << 1 = -2s - 2`, an even number, and or-ing it with the bit `b ∈ {0,1}`
adds `b`; reduced mod 256 (with `s ≤ 255`) this is `(510 - 2*s + b) % 256`.
The bit `b` is `1` exactly when bit 2 of `sr4` is clear and its low three bits
are not all zero. -/
def div4_six (s4 : Nat) : Nat :=
  (510 - 2 * (s4 % 256) +
    (if s4 &&& 0x04 = 0 ∧ s4 &&& 0x07 ≠ 0 then 1 else 0)) % 256

/-- `wave_poly4` (TIA waveform 1, lines 328–331). -/
def wave_poly4 (st : Lfsr) : Lfsr := { st with sr4 := shift4 st.sr4 }

/-- `wave_poly5poly4` (TIA waveform 3, lines 345–351): clock `sr5`; the 5-bit
register clocks the 4-bit one when its (new) bit 4 is set. -/
def wave_poly5poly4 (st : Lfsr) : Lfsr :=
  let s5 := shift5 st.sr5
  { sr4 := if s5 &&& 0x10 ≠ 0 then shift4 st.sr4 else st.sr4, sr5 := s5 }

/-- `wave_div2` (TIA waveforms 4 and 5, lines 354–357). -/
def wave_div2 (st : Lfsr) : Lfsr := { st with sr4 := div4_two st.sr4 }

/-- `wave_div31div2` (TIA waveform 6, lines 360–365). -/
def wave_div31div2 (st : Lfsr) : Lfsr :=
  let s5 := shift5 st.sr5
  { sr4 := if s5 &&& 0x0F = 0x08 then div4_two st.sr4 else st.sr4, sr5 := s5 }

/-- `wave_poly5div2` (TIA waveform 7, lines 368–373). -/
def wave_poly5div2 (st : Lfsr) : Lfsr :=
  let s5 := shift5 st.sr5
  { sr4 := if s5 &&& 0x10 ≠ 0 then div4_two st.sr4 else st.sr4, sr5 := s5 }

/-- `wave_poly9` (TIA waveform 8, lines 376–382).  The intermediate `sr5`
assignment is stored to the `uint8_t` *unmasked* (hence `% 256`), the `sr4`
update reads bit 5 of that stored value, and only then is `sr5` masked to
5 bits. -/
def wave_poly9 (st : Lfsr) : Lfsr :=
  let s5u := ((st.sr5 <<< 1) ||| (nz (st.sr4 &&& 0x08) ^^^ nz (st.sr5 &&& 0x10))) % 256
  { sr4 := ((st.sr4 <<< 1) ||| nz (s5u &&& 0x20)) &&& 0x0F, sr5 := s5u &&& 0x1F }

/-- `wave_poly5` (TIA waveform 9, lines 385–390), same two-stage shape as
`wave_poly9` but with the `shift5` feedback. -/
def wave_poly5 (st : Lfsr) : Lfsr :=
  let s5u := ((st.sr5 <<< 1) ||| (nz (st.sr5 &&& 0x10) ^^^ nz (st.sr5 &&& 0x04))) % 256
  { sr4 := ((st.sr4 <<< 1) ||| nz (s5u &&& 0x20)) &&& 0x0F, sr5 := s5u &&& 0x1F }

/-- `wave_poly5div6` (TIA waveform F, lines 417–422). -/
def wave_poly5div6 (st : Lfsr) : Lfsr :=
  let s5 := shift5 st.sr5
  { sr4 := if s5 &&& 0x10 ≠ 0 then div4_six st.sr4 else st.sr4, sr5 := s5 }

/-- The dispatch table `wavefns` (lines 424–434). -/
def wavefns : Fin 8 → Lfsr → Lfsr
  | ⟨0, _⟩ => wave_poly4
  | ⟨1, _⟩ => wave_poly5poly4
  | ⟨2, _⟩ => wave_div2
  | ⟨3, _⟩ => wave_div31div2
  | ⟨4, _⟩ => wave_poly5div2
  | ⟨5, _⟩ => wave_poly9
  | ⟨6, _⟩ => wave_poly5
  | ⟨7, _⟩ => wave_poly5div6
  | ⟨n + 8, h⟩ => absurd h (by omega)

/-- `tia_out` (lines 438–442): dispatch on `waveformnum & 0x07`, then return
`!!(sr4 & 0x08)` together with the advanced register pair. -/
def tia_out (waveformnum : Nat) (st : Lfsr) : Nat × Lfsr :=
  let st2 := wavefns ⟨waveformnum &&& 0x07, Nat.lt_succ_of_le Nat.and_le_right⟩ st
  (nz (st2.sr4 &&& 0x08), st2)

/-- A tick sequence: apply the selected rules left to right. -/
def runRules (rs : List (Fin 8)) (st : Lfsr) : Lfsr :=
  rs.foldl (fun a r => wavefns r a) st

example : runRules [5, 5, 5, 5] lfsrInit = ⟨0, 17⟩ := by decide
example : runRules [7, 7, 7, 7] lfsrInit = ⟨253, 18⟩ := by decide
example : runRules [1, 1, 5, 7, 5] lfsrInit = ⟨7, 0⟩ := by decide
example : tia_out 3 lfsrInit = (0, ⟨1, 2⟩) := by decide

/-! ### Register invariants -/

/-- Every rule leaves `sr5` masked to 5 bits: each write to `sr5` ends in
`& 0x1F`. -/
lemma sr5_mask_step (i : Fin 8) (st : Lfsr) (h : st.sr5 ≤ 31) :
    (wavefns i st).sr5 ≤ 31 := by
  obtain ⟨v, hv⟩ := i
  interval_cases v <;> first | exact h | exact Nat.and_le_right

/-- Every rule keeps `sr4` inside a byte: writes are masked with `& 0x0F` or
reduced `% 256` by the `uint8_t` store. -/
lemma sr4_byte_step (i : Fin 8) (st : Lfsr) (h : st.sr4 ≤ 255) :
    (wavefns i st).sr4 ≤ 255 := by
  have hmask : ∀ n : Nat, n &&& 0x0F ≤ 255 :=
    fun n => le_trans Nat.and_le_right (by norm_num)
  have hmod : ∀ n : Nat, n % 256 ≤ 255 :=
    fun n => Nat.le_of_lt_succ (Nat.mod_lt n (by norm_num))
  obtain ⟨v, hv⟩ := i
  interval_cases v <;>
    simp only [wavefns, wave_poly4, wave_poly5poly4, wave_div2, wave_div31div2,
      wave_poly5div2, wave_poly9, wave_poly5, wave_poly5div6] <;>
    first
      | exact hmask _
      | exact h
      | (split <;> first | exact hmask _ | exact h | exact hmod _)

/-- Checked over the whole 16 × 32 box: rules 0–4 (`wave_poly4` through
`wave_poly5div2`, which touch `sr4` only through the masked `shift4` /
`div4_two` and `sr5` only through the masked `shift5`) preserve
`sr4 ∈ [1,15] ∧ sr5 ∈ [1,31]`. -/
lemma box_step_small :
    ∀ (i : Fin 5) (a : Fin 16) (b : Fin 32), 1 ≤ a.val → 1 ≤ b.val →
      1 ≤ (wavefns (Fin.castLE (by norm_num) i) ⟨a.val, b.val⟩).sr4 ∧
      (wavefns (Fin.castLE (by norm_num) i) ⟨a.val, b.val⟩).sr4 ≤ 15 ∧
      1 ≤ (wavefns (Fin.castLE (by norm_num) i) ⟨a.val, b.val⟩).sr5 ∧
      (wavefns (Fin.castLE (by norm_num) i) ⟨a.val, b.val⟩).sr5 ≤ 31 := by
  decide

/-- Single-step form of the rules 0–4 box invariant, for arbitrary states. -/
lemma box_step (r : Fin 8) (hr : r.val ≤ 4) (st : Lfsr)
    (h1 : 1 ≤ st.sr4) (h2 : st.sr4 ≤ 15) (h3 : 1 ≤ st.sr5) (h4 : st.sr5 ≤ 31) :
    1 ≤ (wavefns r st).sr4 ∧ (wavefns r st).sr4 ≤ 15 ∧
    1 ≤ (wavefns r st).sr5 ∧ (wavefns r st).sr5 ≤ 31 := by
  have hlt : r.val < 5 := by omega
  have h4lt : st.sr4 < 16 := by omega
  have h5lt : st.sr5 < 32 := by omega
  have hbox := box_step_small ⟨r.val, hlt⟩ ⟨st.sr4, h4lt⟩ ⟨st.sr5, h5lt⟩ h1 h3
  have hcast : Fin.castLE (by norm_num : 5 ≤ 8) (⟨r.val, hlt⟩ : Fin 5) = r :=
    Fin.ext rfl
  rw [hcast] at hbox
  exact hbox

/-- Fold form of the rules 0–4 box invariant. -/
lemma runRules_box (rs : List (Fin 8)) (hrs : ∀ r ∈ rs, r.val ≤ 4) (st : Lfsr)
    (h1 : 1 ≤ st.sr4) (h2 : st.sr4 ≤ 15) (h3 : 1 ≤ st.sr5) (h4 : st.sr5 ≤ 31) :
    1 ≤ (runRules rs st).sr4 ∧ (runRules rs st).sr4 ≤ 15 ∧
    1 ≤ (runRules rs st).sr5 ∧ (runRules rs st).sr5 ≤ 31 := by
  induction rs generalizing st with
  | nil => exact ⟨h1, h2, h3, h4⟩
  | cons r rs ih =>
    have hstep := box_step r (hrs r (List.mem_cons_self r rs)) st h1 h2 h3 h4
    exact ih (fun x hx => hrs x (List.mem_cons_of_mem r hx)) (wavefns r st)
      hstep.1 hstep.2.1 hstep.2.2.1 hstep.2.2.2

/-- Fold form of the `sr5` 5-bit mask invariant (all 8 rules). -/
lemma runRules_sr5 (rs : List (Fin 8)) (st : Lfsr) (h : st.sr5 ≤ 31) :
    (runRules rs st).sr5 ≤ 31 := by
  induction rs generalizing st with
  | nil => exact h
  | cons r rs ih => exact ih (wavefns r st) (sr5_mask_step r st h)

/-- Fold form of the `sr4` byte bound (all 8 rules). -/
lemma runRules_sr4_byte (rs : List (Fin 8)) (st : Lfsr) (h : st.sr4 ≤ 255) :
    (runRules rs st).sr4 ≤ 255 := by
  induction rs generalizing st with
  | nil => exact h
  | cons r rs ih => exact ih (wavefns r st) (sr4_byte_step r st h)

/-- C2 (counterexample): the claimed invariant fails on the code.  From the
power-on state `sr4 = sr5 = 1`: four ticks of rule 5 (`wave_poly9`) — or of
rule 6 (`wave_poly5`) — drive `sr4` to 0; four ticks of rule 7
(`wave_poly5div6`, whose `div4_six` update carries no 4-bit mask) drive
`sr4` to 253, outside `[1,15]`; and the five-tick mixed sequence 1,1,5,7,5
drives `sr5` to 0. -/
theorem lfsr_claimed_invariant_fails :
    (runRules [5, 5, 5, 5] lfsrInit).sr4 = 0 ∧
    (runRules [6, 6, 6, 6] lfsrInit).sr4 = 0 ∧
    (runRules [7, 7, 7, 7] lfsrInit).sr4 = 253 ∧
    ¬ (runRules [7, 7, 7, 7] lfsrInit).sr4 ≤ 15 ∧
    (runRules [1, 1, 5, 7, 5] lfsrInit).sr5 = 0 := by
  decide

/-- C2 (amended): what actually holds of the register pair.  `sr5` is masked
to 5 bits by every one of the 8 rules (it never exceeds 31), and `sr4` always
stays within a byte; starting from `sr4 = sr5 = 1`, any tick sequence using
only rules 0–4 keeps `sr4` in `[1,15]` and `sr5` in `[1,31]`.  The original
bounds do not hold for rules 5–7 (see the counterexample). -/
theorem lfsr_register_invariants :
    (∀ (i : Fin 8) (st : Lfsr), st.sr5 ≤ 31 → (wavefns i st).sr5 ≤ 31) ∧
    (∀ rs : List (Fin 8),
      (runRules rs lfsrInit).sr5 ≤ 31 ∧ (runRules rs lfsrInit).sr4 ≤ 255) ∧
    (∀ rs : List (Fin 8), (∀ r ∈ rs, r.val ≤ 4) →
      1 ≤ (runRules rs lfsrInit).sr4 ∧ (runRules rs lfsrInit).sr4 ≤ 15 ∧
      1 ≤ (runRules rs lfsrInit).sr5 ∧ (runRules rs lfsrInit).sr5 ≤ 31) := by
  refine ⟨sr5_mask_step, ?_, ?_⟩
  · intro rs
    exact ⟨runRules_sr5 rs lfsrInit (by decide),
      runRules_sr4_byte rs lfsrInit (by decide)⟩
  · intro rs hrs
    exact runRules_box rs hrs lfsrInit (by decide) (by decide) (by decide)
      (by decide)

/-- C2 (witness): the amended invariant instantiated on a concrete mixed
tick sequence that uses every rule in 0–4. -/
theorem lfsr_register_invariants_witness :
    1 ≤ (runRules [0, 1, 2, 3, 4, 4, 3, 2, 1, 0] lfsrInit).sr4 ∧
    (runRules [0, 1, 2, 3, 4, 4, 3, 2, 1, 0] lfsrInit).sr4 ≤ 15 ∧
    1 ≤ (runRules [0, 1, 2, 3, 4, 4, 3, 2, 1, 0] lfsrInit).sr5 ∧
    (runRules [0, 1, 2, 3, 4, 4, 3, 2, 1, 0] lfsrInit).sr5 ≤ 31 :=
  lfsr_register_invariants.2.2 [0, 1, 2, 3, 4, 4, 3, 2, 1, 0] (by decide)

/-- C8: `tia_out` masks the selector with `& 0x07`, which equals reduction
mod 8, so the table access is always in bounds (the dispatch is a total
function out of `Fin 8`); the returned sample is `!!(sr4 & 0x08)` — bit 3 of
`sr4` after the update — and is therefore always 0 or 1. -/
theorem tia_out_dispatch_safe (w : Nat) (st : Lfsr) :
    w &&& 0x07 = w % 8 ∧
    (tia_out w st).2 = wavefns ⟨w % 8, Nat.mod_lt w (by norm_num)⟩ st ∧
    (tia_out w st).1 = nz ((tia_out w st).2.sr4 &&& 0x08) ∧
    ((tia_out w st).1 = 0 ∨ (tia_out w st).1 = 1) := by
  have hand7 : w &&& 0x07 = w % 8 := by
    have h := Nat.and_pow_two_sub_one_eq_mod w 3
    norm_num at h
    exact h
  have hnz : ∀ n, nz n = 0 ∨ nz n = 1 := by
    intro n
    unfold nz
    split <;> simp
  refine ⟨hand7, ?_, rfl, hnz _⟩
  show wavefns ⟨w &&& 0x07, _⟩ st = wavefns ⟨w % 8, _⟩ st
  congr 1
  exact Fin.ext hand7

/-! ### Value-level engine state (`loop` / `recalcFreq`, lines 38–295)

The frequency variables are modelled in exact rational arithmetic; every
concrete value used below is exactly representable in IEEE-754 single
precision, and the operations the sweep performs on them (adding ±1,
equality / order comparison) are exact there. -/

/-- The mutable engine state of `attiny_slaveSynth.ino` (globals, lines
38–57), minus the LED-blink bookkeeping that the value-level claims do not
touch: `chipEnable`, the generator enables, the sweep block, the waveform
selector, the frequencies, the `delayUs` timing variable, the diagnostic
`numBlinks` counter and the LFSR pair. -/
structure SynthQ where
  numBlinks : Int
  chipEnable : Bool
  noiseGenEnable : Bool
  atariGenEnable : Bool
  freqSweepEnable : Bool
  targetFrequency : ℚ
  sweepDelay : Int
  nextSweepMicros : Int
  sweepStep : Int
  sweepDirection : Int
  selectedWaveform : Nat
  selectedFrequency : ℚ
  delayUs : Int
  lfsr : Lfsr
deriving DecidableEq, Repr

/-- `recalcFreq` (lines 293–295), exact-arithmetic view:
`delayUs = 500000 / selectedFrequency` as the floor of the exact quotient.
The C code divides in single precision and truncates into a 16-bit `int`,
which can differ from this floor (`recalcFreqF` below is the rounding-exact
model used where that difference matters); every concrete frequency at which
a claim below evaluates `recalcFreq` is one where the two agree. -/
def recalcFreq (f : ℚ) : Int := ⌊(500000 : ℚ) / f⌋

/-- Power-on state after `setup()` (globals 38–57 plus the `recalcFreq()`
call in `setup`, line 76, and `numBlinks = 3`, line 77). -/
def initQ : SynthQ :=
  { numBlinks := 3
    chipEnable := false
    noiseGenEnable := false
    atariGenEnable := false
    freqSweepEnable := false
    targetFrequency := 440
    sweepDelay := 0
    nextSweepMicros := 0
    sweepStep := 1
    sweepDirection := 1
    selectedWaveform := 1
    selectedFrequency := 440
    delayUs := recalcFreq 440
    lfsr := lfsrInit }

/-- `case '0'` (lines 110–113). -/
def cmdDisable (s : SynthQ) : SynthQ :=
  { s with numBlinks := 1, chipEnable := false }

/-- `case '1'` (lines 118–121). -/
def cmdEnable (s : SynthQ) : SynthQ :=
  { s with numBlinks := 1, chipEnable := true }

/-- `case 'N'` (lines 143–153): odd payload byte enables the noise
generator, even disables it. -/
def cmdNoise (b : Nat) (s : SynthQ) : SynthQ :=
  { s with numBlinks := 1
           noiseGenEnable := if b % 2 = 0 then false else true }

/-- `case 'A'` (lines 159–169): odd payload byte enables the Atari
generator, even disables it. -/
def cmdAtari (b : Nat) (s : SynthQ) : SynthQ :=
  { s with numBlinks := 1
           atariGenEnable := if b % 2 = 0 then false else true }

/-- `case 'W'` (lines 175–180): store the payload byte as the waveform
selector. -/
def cmdWave (b : Nat) (s : SynthQ) : SynthQ :=
  { s with numBlinks := 1, selectedWaveform := b % 256 }

/-- `case 'F'` (lines 186–204) at value level, `f` being the float decoded
from the four little-endian payload bytes: set `selectedFrequency`, rerun
`recalcFreq`, disable sweeping. -/
def cmdFreq (f : ℚ) (s : SynthQ) : SynthQ :=
  { s with numBlinks := 1
           selectedFrequency := f
           delayUs := recalcFreq f
           freqSweepEnable := false }

/-- `case 'S'` (lines 211–256) at value level: `fstart` and `ftarget` are
the floats decoded from the two four-byte groups, `d0 d1` the two raw bytes
of the sweep-delay field (assembled little-endian through `convBytesLong`,
whose upper bytes are zero — see the byte-level model below).  Sets start and
target, `sweepDelay`, `nextSweepMicros = now + sweepDelay`, the direction
(up exactly when start < target), reruns `recalcFreq`, enables sweeping.
Note there is no step-size field: `sweepStep` is never written. -/
def cmdSweep (now : Int) (fstart ftarget : ℚ) (d0 d1 : Nat) (s : SynthQ) :
    SynthQ :=
  let delay : Int := (d0 % 256 : Nat) + 256 * ((d1 % 256 : Nat) : Int)
  { s with numBlinks := 1
           selectedFrequency := fstart
           targetFrequency := ftarget
           sweepDelay := delay
           nextSweepMicros := now + delay
           sweepDirection := if fstart < ftarget then 1 else -1
           delayUs := recalcFreq fstart
           freqSweepEnable := true }

/-- `default` branch (lines 258–260): unknown opcode only sets
`numBlinks = 5`. -/
def cmdUnknown (s : SynthQ) : SynthQ :=
  { s with numBlinks := 5 }

/-- The sweep tick (lines 266–275), the body run each loop iteration while
`chipEnable` holds: when sweeping and `micros() >= nextSweepMicros`, add
`sweepDirection` (±1) to the frequency and rerun `recalcFreq`; if the result
equals the target exactly, stop sweeping, otherwise schedule the next step at
`now + sweepDelay`.  This is the exact-arithmetic view: the C increment is a
single-precision addition, which agrees with the exact sum only while the
frequency magnitude keeps the ±1 step representable (`sweepTickF` below
models the rounding). -/
def sweepTick (now : Int) (s : SynthQ) : SynthQ :=
  if s.freqSweepEnable then
    if s.nextSweepMicros ≤ now then
      if s.selectedFrequency + (s.sweepDirection : ℚ) = s.targetFrequency then
        { s with selectedFrequency := s.selectedFrequency + (s.sweepDirection : ℚ)
                 delayUs := recalcFreq (s.selectedFrequency + (s.sweepDirection : ℚ))
                 freqSweepEnable := false }
      else
        { s with selectedFrequency := s.selectedFrequency + (s.sweepDirection : ℚ)
                 delayUs := recalcFreq (s.selectedFrequency + (s.sweepDirection : ℚ))
                 nextSweepMicros := now + s.sweepDelay }
    else s
  else s

/-- One observable output action of the speaker-driving branch. -/
inductive OutEvent where
  | silent : OutEvent
  | noiseBit : Nat → OutEvent
  | atariSample : Nat → Int → OutEvent
  | squareHalf : Int → OutEvent
deriving DecidableEq, Repr

/-- The sound-generation block (lines 264–289): nothing while disabled;
otherwise run the sweep tick, then with fixed precedence emit a random noise
bit, or one `tia_out` sample held for `delayUs`, or a plain square half-wave
pair each held `delayUs`.  `rnd` models `random(2)`. -/
def soundCycle (now : Int) (rnd : Nat) (s : SynthQ) : SynthQ × OutEvent :=
  if s.chipEnable then
    if (sweepTick now s).noiseGenEnable then
      (sweepTick now s, .noiseBit (rnd % 2))
    else if (sweepTick now s).atariGenEnable then
      ({ sweepTick now s with
           lfsr := (tia_out (sweepTick now s).selectedWaveform
                      (sweepTick now s).lfsr).2 },
        .atariSample (tia_out (sweepTick now s).selectedWaveform
                        (sweepTick now s).lfsr).1
          (sweepTick now s).delayUs)
    else (sweepTick now s, .squareHalf (sweepTick now s).delayUs)
  else (s, .silent)

/-- Evaluation helper for `recalcFreq`: bracket the quotient between `z` and
`z + 1`. -/
lemma recalcFreq_eq (f : ℚ) (z : Int) (h1 : (z : ℚ) ≤ 500000 / f)
    (h2 : 500000 / f < (z : ℚ) + 1) : recalcFreq f = z :=
  Int.floor_eq_iff.mpr ⟨h1, h2⟩

example : recalcFreq 440 = 1136 := recalcFreq_eq _ _ (by norm_num) (by norm_num)

/-! ### IEEE-754 binary32 rounding model

The source performs its frequency arithmetic on `float`.  Where a claim
turns on the rounding itself, the exact rational result is composed with
`roundF32`: round-to-nearest, ties-to-even, at 24 bits of precision, the
IEEE-754 binary32 rounding on its normal range (no claim evaluates it on a
subnormal or overflowing value). -/

/-- Round `q` to the binade-`e` grid (multiples of `2^(e-23)`), to nearest,
ties to even. -/
def roundAt (e : ℤ) (q : ℚ) : ℚ :=
  if q * (2 : ℚ) ^ (23 - e) - ⌊q * (2 : ℚ) ^ (23 - e)⌋ < 1 / 2 then
    (⌊q * (2 : ℚ) ^ (23 - e)⌋ : ℚ) * (2 : ℚ) ^ (e - 23)
  else if 1 / 2 < q * (2 : ℚ) ^ (23 - e) - ⌊q * (2 : ℚ) ^ (23 - e)⌋ then
    ((⌊q * (2 : ℚ) ^ (23 - e)⌋ + 1 : ℤ) : ℚ) * (2 : ℚ) ^ (e - 23)
  else if ⌊q * (2 : ℚ) ^ (23 - e)⌋ % 2 = 0 then
    (⌊q * (2 : ℚ) ^ (23 - e)⌋ : ℚ) * (2 : ℚ) ^ (e - 23)
  else ((⌊q * (2 : ℚ) ^ (23 - e)⌋ + 1 : ℤ) : ℚ) * (2 : ℚ) ^ (e - 23)

/-- IEEE-754 binary32 round-to-nearest-even on the normal range: pick the
binade of the absolute value by `Int.log 2` and round within it. -/
def roundF32 (q : ℚ) : ℚ :=
  if q = 0 then 0
  else if 0 < q then roundAt (Int.log 2 q) q
  else -roundAt (Int.log 2 (-q)) (-q)

/-- Floor evaluation helper: bracket `q` in `[n, n+1)`. -/
lemma floorRat_eq (q : ℚ) (n : ℤ) (h1 : (n : ℚ) ≤ q) (h2 : q < n + 1) :
    ⌊q⌋ = n := Int.floor_eq_iff.mpr ⟨h1, h2⟩

/-- `Int.log 2` evaluation helper: bracket `q` in `[2^k, 2^(k+1))`. -/
lemma intLog2_eq (q : ℚ) (k : ℤ) (h0 : 0 < q) (h1 : (2 : ℚ) ^ k ≤ q)
    (h2 : q < (2 : ℚ) ^ (k + 1)) : Int.log 2 q = k := by
  have hcast : ((2 : ℕ) : ℚ) = (2 : ℚ) := by norm_num
  have ha := (Int.zpow_le_iff_le_log (b := 2) (by norm_num) h0).mp
    (by rw [hcast]; exact h1)
  have hb2 := (Int.lt_zpow_iff_log_lt (b := 2) (by norm_num) h0).mp
    (by rw [hcast]; exact h2)
  omega

lemma roundAt_down (e : ℤ) (q : ℚ) (n : ℤ) (hfl : ⌊q * (2 : ℚ) ^ (23 - e)⌋ = n)
    (hlt : q * (2 : ℚ) ^ (23 - e) - n < 1 / 2) :
    roundAt e q = (n : ℚ) * (2 : ℚ) ^ (e - 23) := by
  unfold roundAt
  rw [hfl, if_pos hlt]

lemma roundAt_up (e : ℤ) (q : ℚ) (n : ℤ) (hfl : ⌊q * (2 : ℚ) ^ (23 - e)⌋ = n)
    (hgt : 1 / 2 < q * (2 : ℚ) ^ (23 - e) - n) :
    roundAt e q = ((n + 1 : ℤ) : ℚ) * (2 : ℚ) ^ (e - 23) := by
  unfold roundAt
  rw [hfl, if_neg (by linarith), if_pos hgt]

lemma roundAt_tie_even (e : ℤ) (q : ℚ) (n : ℤ)
    (hfl : ⌊q * (2 : ℚ) ^ (23 - e)⌋ = n)
    (heq : q * (2 : ℚ) ^ (23 - e) - n = 1 / 2) (hev : n % 2 = 0) :
    roundAt e q = (n : ℚ) * (2 : ℚ) ^ (e - 23) := by
  unfold roundAt
  rw [hfl, if_neg (by linarith), if_neg (by linarith), if_pos hev]

lemma roundAt_tie_odd (e : ℤ) (q : ℚ) (n : ℤ)
    (hfl : ⌊q * (2 : ℚ) ^ (23 - e)⌋ = n)
    (heq : q * (2 : ℚ) ^ (23 - e) - n = 1 / 2) (hodd : ¬ n % 2 = 0) :
    roundAt e q = ((n + 1 : ℤ) : ℚ) * (2 : ℚ) ^ (e - 23) := by
  unfold roundAt
  rw [hfl, if_neg (by linarith), if_neg (by linarith), if_neg hodd]

/-- Values already on the grid round to themselves. -/
lemma roundAt_exact (e : ℤ) (q : ℚ) (n : ℤ)
    (h : q * (2 : ℚ) ^ (23 - e) = (n : ℚ)) :
    roundAt e q = (n : ℚ) * (2 : ℚ) ^ (e - 23) := by
  have hfl : ⌊q * (2 : ℚ) ^ (23 - e)⌋ = n := by
    rw [h]
    exact Int.floor_intCast n
  exact roundAt_down e q n hfl (by rw [h]; norm_num)

lemma roundF32_pos (q : ℚ) (h : 0 < q) :
    roundF32 q = roundAt (Int.log 2 q) q := by
  unfold roundF32
  rw [if_neg (ne_of_gt h), if_pos h]

lemma roundF32_neg_eq (q : ℚ) : roundF32 (-q) = -roundF32 q := by
  rcases lt_trichotomy q 0 with h | h | h
  · rw [roundF32_pos (-q) (by linarith)]
    unfold roundF32
    rw [if_neg (ne_of_lt h), if_neg (by linarith), neg_neg]
  · subst h
    norm_num [roundF32]
  · rw [roundF32_pos q h]
    unfold roundF32
    rw [if_neg (neg_ne_zero.mpr (ne_of_gt h)), if_neg (by linarith), neg_neg]

/-- Positive integers up to `2^24` are exactly representable in binary32, so
`roundF32` fixes them. -/
lemma roundF32_pos_int_fix (n : ℤ) (h1 : 1 ≤ n) (h2 : n ≤ 2 ^ 24) :
    roundF32 (n : ℚ) = (n : ℚ) := by
  have h0 : (0 : ℚ) < (n : ℚ) := by exact_mod_cast h1
  rw [roundF32_pos _ h0]
  set e := Int.log 2 ((n : ℚ)) with he
  have hlow : (2 : ℚ) ^ e ≤ (n : ℚ) := by
    have hz := Int.zpow_log_le_self (b := 2) (by norm_num) h0
    rwa [show ((2 : ℕ) : ℚ) = (2 : ℚ) by norm_num] at hz
  have he0 : 0 ≤ e := by
    apply (Int.zpow_le_iff_le_log (b := 2) (by norm_num) h0).mp
    have hcst : (1 : ℚ) ≤ (n : ℚ) := by exact_mod_cast h1
    calc ((2 : ℕ) : ℚ) ^ (0 : ℤ) = 1 := by norm_num
      _ ≤ (n : ℚ) := hcst
  have he24 : e < 25 := by
    apply (Int.lt_zpow_iff_log_lt (b := 2) (by norm_num) h0).mp
    have hcst : (n : ℚ) ≤ 2 ^ 24 := by exact_mod_cast h2
    calc (n : ℚ) ≤ 2 ^ 24 := hcst
      _ < ((2 : ℕ) : ℚ) ^ (25 : ℤ) := by norm_num
  by_cases he23 : e ≤ 23
  · obtain ⟨k, hk⟩ : ∃ k : ℕ, 23 - e = (k : ℤ) :=
      ⟨(23 - e).toNat, (Int.toNat_of_nonneg (by omega)).symm⟩
    have hsc : (n : ℚ) * (2 : ℚ) ^ (23 - e) = ((n * 2 ^ k : ℤ) : ℚ) := by
      rw [hk, zpow_natCast]
      push_cast
      ring
    rw [roundAt_exact _ _ _ hsc]
    push_cast
    rw [mul_assoc, ← zpow_natCast (2 : ℚ) k, ← hk,
      ← zpow_add₀ (show (2 : ℚ) ≠ 0 by norm_num),
      show (23 - e) + (e - 23) = 0 by ring, zpow_zero, mul_one]
  · have he' : e = 24 := by omega
    have hn : (n : ℚ) = 2 ^ 24 := by
      have hup : (n : ℚ) ≤ 2 ^ 24 := by exact_mod_cast h2
      have hdn : (2 : ℚ) ^ 24 ≤ (n : ℚ) := by
        calc (2 : ℚ) ^ 24 = (2 : ℚ) ^ (24 : ℤ) := by norm_num
          _ ≤ (n : ℚ) := by rw [← he']; exact hlow
      linarith
    have hsc : (n : ℚ) * (2 : ℚ) ^ (23 - e) = ((8388608 : ℤ) : ℚ) := by
      rw [he', hn]
      norm_num
    rw [roundAt_exact _ _ _ hsc, he', hn]
    norm_num

/-- Integers with `|n| ≤ 2^24` are exactly representable in binary32. -/
lemma roundF32_int_fix (n : ℤ) (h : |n| ≤ 2 ^ 24) :
    roundF32 (n : ℚ) = (n : ℚ) := by
  rw [abs_le] at h
  obtain ⟨hl, hr⟩ := h
  rcases lt_trichotomy n 0 with hn | hn | hn
  · have hfix := roundF32_pos_int_fix (-n) (by omega) (by omega)
    have hcast : ((-n : ℤ) : ℚ) = -(n : ℚ) := by push_cast; ring
    rw [hcast, roundF32_neg_eq] at hfix
    exact neg_inj.mp hfix
  · subst hn
    norm_num [roundF32]
  · exact roundF32_pos_int_fix n (by omega) (by omega)

/-- `2^24 + 1` is halfway between the representables `2^24` and `2^24 + 2`;
the tie goes to the even mantissa, `2^24`. -/
lemma roundF32_pow24succ : roundF32 (16777217 : ℚ) = 16777216 := by
  rw [roundF32_pos _ (by norm_num),
    intLog2_eq _ 24 (by norm_num) (by norm_num) (by norm_num),
    roundAt_tie_even 24 _ 8388608 (floorRat_eq _ _ (by norm_num) (by norm_num))
      (by norm_num) (by norm_num)]
  norm_num

/-- The stalled decrement: `-2^24 - 1` rounds back to `-2^24`. -/
lemma roundF32_stall : roundF32 (-(16777217 : ℚ)) = -16777216 := by
  rw [roundF32_neg_eq, roundF32_pow24succ]

/-- `2^25 - 1` is halfway between the representables `2^25 - 2` (odd
mantissa) and `2^25` (even mantissa); the tie goes to `2^25`. -/
lemma roundF32_pow25sub1 : roundF32 (33554431 : ℚ) = 33554432 := by
  rw [roundF32_pos _ (by norm_num),
    intLog2_eq _ 24 (by norm_num) (by norm_num) (by norm_num),
    roundAt_tie_odd 24 _ 16777215 (floorRat_eq _ _ (by norm_num) (by norm_num))
      (by norm_num) (by norm_num)]
  norm_num

/-- C float-to-int conversion truncates toward zero. -/
def ratTrunc (q : ℚ) : ℤ := if 0 ≤ q then ⌊q⌋ else -⌊-q⌋

/-- Storage into the 16-bit AVR `int delayUs` keeps the low 16 bits, two's
complement. -/
def wrap16 (n : ℤ) : ℤ := (n + 32768) % 65536 - 32768

/-- `recalcFreq` (lines 293–295), rounding-exact view: the single-precision
quotient `500000 / f` (IEEE division is the correctly rounded exact
quotient), truncated toward zero and stored into the 16-bit `delayUs`.
(At `f = 0` the C division yields +inf and the conversion is undefined; no
claim evaluates this model there.) -/
def recalcFreqF (f : ℚ) : ℤ := wrap16 (ratTrunc (roundF32 (500000 / f)))

lemma recalcFreqF_440 : recalcFreqF 440 = 1136 := by
  have h : roundF32 ((500000 : ℚ) / 440) = 9309091 / 8192 := by
    rw [show (500000 : ℚ) / 440 = 12500 / 11 by norm_num,
      roundF32_pos _ (by norm_num),
      intLog2_eq _ 10 (by norm_num) (by norm_num) (by norm_num),
      roundAt_up 10 _ 9309090 (floorRat_eq _ _ (by norm_num) (by norm_num))
        (by norm_num)]
    norm_num
  rw [recalcFreqF, h, ratTrunc, if_pos (by norm_num),
    floorRat_eq _ 1136 (by norm_num) (by norm_num)]
  decide

lemma recalcFreqF_880 : recalcFreqF 880 = 568 := by
  have h : roundF32 ((500000 : ℚ) / 880) = 9309091 / 16384 := by
    rw [show (500000 : ℚ) / 880 = 6250 / 11 by norm_num,
      roundF32_pos _ (by norm_num),
      intLog2_eq _ 9 (by norm_num) (by norm_num) (by norm_num),
      roundAt_up 9 _ 9309090 (floorRat_eq _ _ (by norm_num) (by norm_num))
        (by norm_num)]
    norm_num
  rw [recalcFreqF, h, ratTrunc, if_pos (by norm_num),
    floorRat_eq _ 568 (by norm_num) (by norm_num)]
  decide

lemma recalcFreqF_300000 : recalcFreqF 300000 = 1 := by
  have h : roundF32 ((500000 : ℚ) / 300000) = 13981013 / 8388608 := by
    rw [show (500000 : ℚ) / 300000 = 5 / 3 by norm_num,
      roundF32_pos _ (by norm_num),
      intLog2_eq _ 0 (by norm_num) (by norm_num) (by norm_num),
      roundAt_down 0 _ 13981013 (floorRat_eq _ _ (by norm_num) (by norm_num))
        (by norm_num)]
    norm_num
  rw [recalcFreqF, h, ratTrunc, if_pos (by norm_num),
    floorRat_eq _ 1 (by norm_num) (by norm_num)]
  decide

lemma recalcFreqF_400000 : recalcFreqF 400000 = 1 := by
  have h : roundF32 ((500000 : ℚ) / 400000) = 5 / 4 := by
    rw [show (500000 : ℚ) / 400000 = 5 / 4 by norm_num,
      roundF32_pos _ (by norm_num),
      intLog2_eq _ 0 (by norm_num) (by norm_num) (by norm_num),
      roundAt_exact 0 _ 10485760 (by norm_num)]
    norm_num
  rw [recalcFreqF, h, ratTrunc, if_pos (by norm_num),
    floorRat_eq _ 1 (by norm_num) (by norm_num)]
  decide

/-- At the representable frequency 166666.671875 Hz (= 10666667/64) the
single-precision quotient `500000 / f = 3 - 1/10666667` rounds *up* to 3.0,
so the program's half-period is 3 µs although the exact quotient floors
to 2. -/
lemma recalcFreqF_rounds_up : recalcFreqF (10666667 / 64) = 3 := by
  have h : roundF32 ((500000 : ℚ) / (10666667 / 64)) = 3 := by
    rw [show (500000 : ℚ) / (10666667 / 64) = 32000000 / 10666667 by norm_num,
      roundF32_pos _ (by norm_num),
      intLog2_eq _ 1 (by norm_num) (by norm_num) (by norm_num),
      roundAt_up 1 _ 12582911 (floorRat_eq _ _ (by norm_num) (by norm_num))
        (by norm_num)]
    norm_num
  rw [recalcFreqF, h, ratTrunc, if_pos (by norm_num),
    floorRat_eq _ 3 (by norm_num) (by norm_num)]
  decide

/-- What a due sweep tick does, in full: add the direction to the frequency,
rerun `recalcFreq`, and either stop (exact hit) or reschedule. -/
lemma sweepTick_due (t : SynthQ) (now : Int) (hact : t.freqSweepEnable = true)
    (hdue : t.nextSweepMicros ≤ now) :
    (sweepTick now t).selectedFrequency
      = t.selectedFrequency + (t.sweepDirection : ℚ) ∧
    (sweepTick now t).delayUs
      = recalcFreq (t.selectedFrequency + (t.sweepDirection : ℚ)) ∧
    (t.selectedFrequency + (t.sweepDirection : ℚ) = t.targetFrequency →
      (sweepTick now t).freqSweepEnable = false) ∧
    (t.selectedFrequency + (t.sweepDirection : ℚ) ≠ t.targetFrequency →
      (sweepTick now t).freqSweepEnable = true ∧
      (sweepTick now t).nextSweepMicros = now + t.sweepDelay ∧
      (sweepTick now t).targetFrequency = t.targetFrequency ∧
      (sweepTick now t).sweepDirection = t.sweepDirection ∧
      (sweepTick now t).sweepDelay = t.sweepDelay) := by
  unfold sweepTick
  rw [if_pos hact, if_pos hdue]
  by_cases heq :
      t.selectedFrequency + (t.sweepDirection : ℚ) = t.targetFrequency
  · rw [if_pos heq]
    exact ⟨rfl, rfl, fun _ => rfl, fun hne => absurd heq hne⟩
  · rw [if_neg heq]
    exact ⟨rfl, rfl, fun h2 => absurd h2 heq,
      fun _ => ⟨hact, rfl, rfl, rfl, rfl⟩⟩

/-- C1 (counterexample): no clamping exists.  `'S'` at time 95 with start
440, target 440.5 (both exactly representable floats) and delay 5 arms an
upward sweep due at 100; the tick at 100 moves the frequency to 441, past
the 440.5 target, yet the sweep stays active and the frequency is not
clamped to the target. -/
theorem sweep_overshoot_not_clamped :
    (cmdSweep 95 440 (881 / 2) 5 0 initQ).freqSweepEnable = true ∧
    (cmdSweep 95 440 (881 / 2) 5 0 initQ).sweepDirection = 1 ∧
    (cmdSweep 95 440 (881 / 2) 5 0 initQ).nextSweepMicros ≤ 100 ∧
    (sweepTick 100 (cmdSweep 95 440 (881 / 2) 5 0 initQ)).selectedFrequency
      = 441 ∧
    (cmdSweep 95 440 (881 / 2) 5 0 initQ).targetFrequency < 441 ∧
    (sweepTick 100 (cmdSweep 95 440 (881 / 2) 5 0 initQ)).freqSweepEnable
      = true ∧
    (sweepTick 100 (cmdSweep 95 440 (881 / 2) 5 0 initQ)).selectedFrequency
      ≠ (cmdSweep 95 440 (881 / 2) 5 0 initQ).targetFrequency := by
  norm_num [cmdSweep, sweepTick, initQ]

/-- C1 (amended): at a due tick the frequency moves by `sweepDirection`
(±1 Hz — `stepHz` does not exist in the tick), the half-period is recomputed,
and the sweep is deactivated only when the new value equals the target
*exactly*; otherwise — including when the step has just overshot the
target — the sweep stays active and is rescheduled to `now + sweepDelay`. -/
theorem sweep_tick_unit_step_exact_stop (s : SynthQ) (now : Int)
    (hact : s.freqSweepEnable = true) (hdue : s.nextSweepMicros ≤ now) :
    (sweepTick now s).selectedFrequency
      = s.selectedFrequency + (s.sweepDirection : ℚ) ∧
    (sweepTick now s).delayUs
      = recalcFreq (s.selectedFrequency + (s.sweepDirection : ℚ)) ∧
    (s.selectedFrequency + (s.sweepDirection : ℚ) = s.targetFrequency →
      (sweepTick now s).freqSweepEnable = false) ∧
    (s.selectedFrequency + (s.sweepDirection : ℚ) ≠ s.targetFrequency →
      (sweepTick now s).freqSweepEnable = true ∧
      (sweepTick now s).nextSweepMicros = now + s.sweepDelay) := by
  have h := sweepTick_due s now hact hdue
  exact ⟨h.1, h.2.1, h.2.2.1, fun hne => ⟨(h.2.2.2 hne).1, (h.2.2.2 hne).2.1⟩⟩

/-- C1 (witness): the amended tick behaviour on a concrete armed sweep. -/
theorem sweep_tick_unit_step_exact_stop_witness :
    (sweepTick 100 (cmdSweep 95 440 880 5 0 initQ)).selectedFrequency
      = (cmdSweep 95 440 880 5 0 initQ).selectedFrequency
        + ((cmdSweep 95 440 880 5 0 initQ).sweepDirection : ℚ) :=
  (sweep_tick_unit_step_exact_stop _ 100 rfl (by simp [cmdSweep, initQ])).1

/-- C3 (counterexample): the `'S'` payload carries no step-size field — its
only integer field (the final two bytes, here the value 2) is the step
*interval* `sweepDelay` — and a due tick moves the frequency by 1, not by
that integer; `sweepStep` stays at its initial constant 1. -/
theorem sweep_step_ignores_payload_integer :
    (cmdSweep 0 440 880 2 0 initQ).sweepDelay = 2 ∧
    (cmdSweep 0 440 880 2 0 initQ).sweepStep = 1 ∧
    (sweepTick 2 (cmdSweep 0 440 880 2 0 initQ)).selectedFrequency = 441 ∧
    (441 : ℚ) ≠ 440 + 2 := by
  norm_num [cmdSweep, sweepTick, initQ]

/-- C3 (amended): `'S'` decodes start, target and a 2-byte step interval
(no `stepHz`); it sets start/target, derives the direction (up exactly when
start < target, so ±1), schedules `nextDueTimeMicros = now + interval`,
recomputes the half-period, activates the sweep, and leaves `sweepStep`
untouched; each due tick then changes the frequency by exactly the ±1
direction value. -/
theorem sweep_command_effects (now : Int) (fstart ftarget : ℚ)
    (d0 d1 : Nat) (s : SynthQ) :
    (cmdSweep now fstart ftarget d0 d1 s).freqSweepEnable = true ∧
    (cmdSweep now fstart ftarget d0 d1 s).selectedFrequency = fstart ∧
    (cmdSweep now fstart ftarget d0 d1 s).targetFrequency = ftarget ∧
    (cmdSweep now fstart ftarget d0 d1 s).sweepDirection
      = (if fstart < ftarget then 1 else -1) ∧
    (cmdSweep now fstart ftarget d0 d1 s).sweepDelay
      = ((d0 % 256 : Nat) : Int) + 256 * ((d1 % 256 : Nat) : Int) ∧
    (cmdSweep now fstart ftarget d0 d1 s).nextSweepMicros
      = now + (cmdSweep now fstart ftarget d0 d1 s).sweepDelay ∧
    (cmdSweep now fstart ftarget d0 d1 s).delayUs = recalcFreq fstart ∧
    (cmdSweep now fstart ftarget d0 d1 s).sweepStep = s.sweepStep ∧
    (∀ (t : SynthQ) (now2 : Int), t.freqSweepEnable = true →
      t.nextSweepMicros ≤ now2 →
      (sweepTick now2 t).selectedFrequency
        = t.selectedFrequency + (t.sweepDirection : ℚ)) := by
  refine ⟨rfl, rfl, rfl, rfl, rfl, rfl, rfl, rfl, ?_⟩
  intro t now2 hact hdue
  exact (sweepTick_due t now2 hact hdue).1

/-- C3 (witness): the amended `'S'` effects on a concrete command, including
one due tick moving the frequency by exactly the direction unit. -/
theorem sweep_command_effects_witness :
    (cmdSweep 0 440 880 2 0 initQ).freqSweepEnable = true ∧
    (sweepTick 2 (cmdSweep 0 440 880 2 0 initQ)).selectedFrequency
      = (cmdSweep 0 440 880 2 0 initQ).selectedFrequency
        + ((cmdSweep 0 440 880 2 0 initQ).sweepDirection : ℚ) :=
  ⟨(sweep_command_effects 0 440 880 2 0 initQ).1,
    (sweep_command_effects 0 440 880 2 0 initQ).2.2.2.2.2.2.2.2
      (cmdSweep 0 440 880 2 0 initQ) 2 rfl (by simp [cmdSweep, initQ])⟩

/-- C4 (counterexample): `recomputeHalfPeriod` is *not* strictly decreasing
— in the program's own arithmetic (single-precision quotient, truncated into
the 16-bit `delayUs`, modelled by `recalcFreqF`), 300000 Hz and 400000 Hz
collapse to the same 1 µs half-period — and at 440 Hz the value 1136 is not
the exact real quotient 500000/440. -/
theorem recalc_freq_not_strictly_decreasing :
    (300000 : ℚ) < 400000 ∧
    recalcFreqF 300000 = 1 ∧ recalcFreqF 400000 = 1 ∧
    ((recalcFreqF 440 : ℚ) ≠ 500000 / 440) := by
  refine ⟨by norm_num, recalcFreqF_300000, recalcFreqF_400000, ?_⟩
  rw [recalcFreqF_440]
  norm_num

/-- C4 (amended): in the program's arithmetic (`recalcFreqF`: correctly
rounded single-precision quotient, truncated toward zero into the 16-bit
`delayUs`), `recomputeHalfPeriod(440.0) = 1136` µs; the value is the
rounded-then-truncated quotient rather than the exact floor — at the
representable frequency 166666.671875 Hz it yields 3 µs while the exact
quotient floors to 2 — and across the sampled frequencies
440 ≤ 880 ≤ 300000 ≤ 400000 Hz the half-periods 1136 ≥ 568 ≥ 1 ≥ 1 µs are
weakly decreasing, not strictly. -/
theorem recalc_freq_float_values :
    recalcFreqF 440 = 1136 ∧
    recalcFreqF 880 = 568 ∧
    recalcFreqF (10666667 / 64) = 3 ∧
    ⌊(500000 : ℚ) / (10666667 / 64)⌋ = 2 ∧
    recalcFreqF 880 ≤ recalcFreqF 440 ∧
    recalcFreqF 300000 ≤ recalcFreqF 880 ∧
    recalcFreqF 400000 ≤ recalcFreqF 300000 := by
  refine ⟨recalcFreqF_440, recalcFreqF_880, recalcFreqF_rounds_up,
    floorRat_eq _ 2 (by norm_num) (by norm_num), ?_, ?_, ?_⟩
  · rw [recalcFreqF_440, recalcFreqF_880]
    norm_num
  · rw [recalcFreqF_880, recalcFreqF_300000]
    norm_num
  · rw [recalcFreqF_300000, recalcFreqF_400000]

/-- Float-faithful sweep tick: lines 266–275 with line 268's
`selectedFrequency += sweepDirection` performed in single precision — the
sum is rounded by `roundF32` before being stored, compared with the target,
and fed to the (float-faithful) `recalcFreq`. -/
def sweepTickF (now : Int) (s : SynthQ) : SynthQ :=
  if s.freqSweepEnable then
    if s.nextSweepMicros ≤ now then
      if roundF32 (s.selectedFrequency + (s.sweepDirection : ℚ))
          = s.targetFrequency then
        { s with
            selectedFrequency :=
              roundF32 (s.selectedFrequency + (s.sweepDirection : ℚ))
            delayUs :=
              recalcFreqF (roundF32 (s.selectedFrequency + (s.sweepDirection : ℚ)))
            freqSweepEnable := false }
      else
        { s with
            selectedFrequency :=
              roundF32 (s.selectedFrequency + (s.sweepDirection : ℚ))
            delayUs :=
              recalcFreqF (roundF32 (s.selectedFrequency + (s.sweepDirection : ℚ)))
            nextSweepMicros := now + s.sweepDelay }
    else s
  else s

/-- `case 'S'` at value level with the float-faithful `recalcFreq()`:
identical to `cmdSweep` except that `delayUs` comes from `recalcFreqF`.
(The payload floats arrive bit-exact, so no rounding occurs on the
frequencies themselves.) -/
def cmdSweepF (now : Int) (fstart ftarget : ℚ) (d0 d1 : Nat) (s : SynthQ) :
    SynthQ :=
  { cmdSweep now fstart ftarget d0 d1 s with delayUs := recalcFreqF fstart }

/-- What a due float-model tick does. -/
lemma sweepTickF_due (t : SynthQ) (now : Int) (hact : t.freqSweepEnable = true)
    (hdue : t.nextSweepMicros ≤ now) :
    (sweepTickF now t).selectedFrequency
      = roundF32 (t.selectedFrequency + (t.sweepDirection : ℚ)) ∧
    (roundF32 (t.selectedFrequency + (t.sweepDirection : ℚ))
        = t.targetFrequency →
      (sweepTickF now t).freqSweepEnable = false) ∧
    (roundF32 (t.selectedFrequency + (t.sweepDirection : ℚ))
        ≠ t.targetFrequency →
      (sweepTickF now t).freqSweepEnable = true ∧
      (sweepTickF now t).nextSweepMicros = now + t.sweepDelay ∧
      (sweepTickF now t).targetFrequency = t.targetFrequency ∧
      (sweepTickF now t).sweepDirection = t.sweepDirection) := by
  unfold sweepTickF
  rw [if_pos hact, if_pos hdue]
  by_cases heq : roundF32 (t.selectedFrequency + (t.sweepDirection : ℚ))
      = t.targetFrequency
  · rw [if_pos heq]
    exact ⟨rfl, fun _ => rfl, fun hne => absurd heq hne⟩
  · rw [if_neg heq]
    exact ⟨rfl, fun h2 => absurd h2 heq, fun _ => ⟨hact, rfl, rfl, rfl⟩⟩

/-- A tick before the due time changes nothing. -/
lemma sweepTickF_not_due (t : SynthQ) (now : Int)
    (hdue : ¬ t.nextSweepMicros ≤ now) : sweepTickF now t = t := by
  unfold sweepTickF
  by_cases hact : t.freqSweepEnable = true
  · rw [if_pos hact, if_neg hdue]
  · rw [if_neg hact]

/-- Invariant of the float-model downward sweep at integer target `m`: the
sweep is active and the frequency is an integer in `[-2^24, m-1]` — the
range over which each decrement is either exactly representable or stalls
at `-2^24`. -/
def sweepLockedF (m : ℤ) (t : SynthQ) : Prop :=
  t.freqSweepEnable = true ∧ t.targetFrequency = (m : ℚ) ∧
  t.sweepDirection = -1 ∧
  ∃ n : ℤ, -(2 ^ 24) ≤ n ∧ n ≤ m - 1 ∧ t.selectedFrequency = (n : ℚ)

/-- Any float-model tick preserves `sweepLockedF`: the rounded decrement is
`n - 1` while `n > -2^24` and sticks at `-2^24` afterwards; either way it
stays an integer strictly below the target, so the equality test never
fires. -/
lemma sweepLockedF_tick (m : ℤ) (hm : m ≤ 2 ^ 24) (now : Int) (t : SynthQ)
    (h : sweepLockedF m t) : sweepLockedF m (sweepTickF now t) := by
  obtain ⟨hact, htgt, hdir, n, hn1, hn2, hfreq⟩ := h
  by_cases hdue : t.nextSweepMicros ≤ now
  · have hsum : t.selectedFrequency + (t.sweepDirection : ℚ)
        = ((n - 1 : ℤ) : ℚ) := by
      rw [hfreq, hdir]
      push_cast
      ring
    have hd := sweepTickF_due t now hact hdue
    by_cases hstall : n = -(2 ^ 24)
    · have hround : roundF32 (t.selectedFrequency + (t.sweepDirection : ℚ))
          = (n : ℚ) := by
        rw [hsum, hstall, show ((-(2 ^ 24) - 1 : ℤ) : ℚ) = -(16777217 : ℚ)
          by norm_num, roundF32_stall]
        norm_num
      have hne : roundF32 (t.selectedFrequency + (t.sweepDirection : ℚ))
          ≠ t.targetFrequency := by
        rw [hround, htgt]
        intro hcon
        have hnm : n = m := by exact_mod_cast hcon
        omega
      obtain ⟨ha2, -, ht2, hd2⟩ := hd.2.2 hne
      exact ⟨ha2, by rw [ht2, htgt], by rw [hd2, hdir], n, hn1, hn2,
        by rw [hd.1, hround]⟩
    · have hround : roundF32 (t.selectedFrequency + (t.sweepDirection : ℚ))
          = ((n - 1 : ℤ) : ℚ) := by
        rw [hsum]
        exact roundF32_int_fix (n - 1) (by rw [abs_le]; omega)
      have hne : roundF32 (t.selectedFrequency + (t.sweepDirection : ℚ))
          ≠ t.targetFrequency := by
        rw [hround, htgt]
        intro hcon
        have hnm : n - 1 = m := by exact_mod_cast hcon
        omega
      obtain ⟨ha2, -, ht2, hd2⟩ := hd.2.2 hne
      exact ⟨ha2, by rw [ht2, htgt], by rw [hd2, hdir], n - 1, by omega,
        by omega, by rw [hd.1, hround]⟩
  · rw [sweepTickF_not_due t now hdue]
    exact ⟨hact, htgt, hdir, n, hn1, hn2, hfreq⟩

/-- Any float-model tick sequence preserves `sweepLockedF`. -/
lemma sweepLockedF_run (m : ℤ) (hm : m ≤ 2 ^ 24) (nows : List Int)
    (t : SynthQ) (h : sweepLockedF m t) :
    sweepLockedF m (nows.foldl (fun a u => sweepTickF u a) t) := by
  induction nows generalizing t with
  | nil => exact h
  | cons u us ih => exact ih (sweepTickF u t) (sweepLockedF_tick m hm u t h)

/-- The `'S'` command of the counterexample: start = target = 2^25
(= 33554432.0f, exactly representable). -/
def c9bigState : SynthQ := cmdSweepF 0 33554432 33554432 1 0 initQ

/-- C9 (counterexample): the sweep does *not* stay active forever.  With
start = target = 2^25, the first due tick's single-precision
`selectedFrequency += -1` computes `roundF32 (2^25 - 1)`, which rounds back
up to 2^25 (the tie between 2^25 - 2 and 2^25 goes to the even mantissa) —
so the frequency equals the target again, is *not* target − 1, and the
line-270 equality test deactivates the sweep on the very first tick. -/
theorem sweep_equal_start_deactivates_float :
    c9bigState.freqSweepEnable = true ∧
    c9bigState.sweepDirection = -1 ∧
    c9bigState.targetFrequency = 33554432 ∧
    c9bigState.nextSweepMicros ≤ 1 ∧
    (sweepTickF 1 c9bigState).selectedFrequency = 33554432 ∧
    (sweepTickF 1 c9bigState).selectedFrequency ≠ 33554432 - 1 ∧
    (sweepTickF 1 c9bigState).freqSweepEnable = false := by
  have hact : c9bigState.freqSweepEnable = true := rfl
  have htgt : c9bigState.targetFrequency = 33554432 := rfl
  have hdir : c9bigState.sweepDirection = -1 := by
    show (if (33554432 : ℚ) < 33554432 then (1 : Int) else -1) = -1
    rw [if_neg (lt_irrefl _)]
  have hdue : c9bigState.nextSweepMicros ≤ 1 := by
    norm_num [c9bigState, cmdSweepF, cmdSweep, initQ]
  have hd := sweepTickF_due c9bigState 1 hact hdue
  have hsum : c9bigState.selectedFrequency + (c9bigState.sweepDirection : ℚ)
      = 33554431 := by
    rw [hdir]
    show (33554432 : ℚ) + ((-1 : ℤ) : ℚ) = 33554431
    norm_num
  have hr : roundF32 (c9bigState.selectedFrequency
      + (c9bigState.sweepDirection : ℚ)) = 33554432 := by
    rw [hsum, roundF32_pow25sub1]
  refine ⟨hact, hdir, htgt, hdue, ?_, ?_, hd.2.1 (by rw [hr, htgt])⟩
  · rw [hd.1, hr]
  · rw [hd.1, hr]
    norm_num

/-- C9 (amended): an `'S'` with start = target always derives direction
*down*; for an integer target `m` in `[1, 2^24]` (the range where the
single-precision decrement is exact until it stalls), the first due tick
lowers the frequency to exactly `m - 1` with the sweep still active, every
due tick from an integer frequency in `(-2^24, 2^24]` lowers it by exactly
1, a due tick at `-2^24` leaves it unchanged (the walk stops decreasing but
does not terminate), and under any further tick sequence the frequency
remains an integer in `[-2^24, m-1]` — never again equal to the target — so
the sweep stays active forever.  (For large start = target, e.g. 2^25, the
rounded decrement re-hits the target instead and the sweep deactivates at
once — see the counterexample.) -/
theorem sweep_equal_start_float (m : ℤ) (hm1 : 1 ≤ m) (hm2 : m ≤ 2 ^ 24)
    (now : Int) (d0 d1 : Nat) (s : SynthQ) :
    (cmdSweepF now (m : ℚ) (m : ℚ) d0 d1 s).sweepDirection = -1 ∧
    (∀ now2 : Int,
      (cmdSweepF now (m : ℚ) (m : ℚ) d0 d1 s).nextSweepMicros ≤ now2 →
      (sweepTickF now2 (cmdSweepF now (m : ℚ) (m : ℚ) d0 d1 s)).selectedFrequency
        = ((m - 1 : ℤ) : ℚ) ∧
      (sweepTickF now2 (cmdSweepF now (m : ℚ) (m : ℚ) d0 d1 s)).freqSweepEnable
        = true) ∧
    (∀ (t : SynthQ) (now2 : Int) (n : ℤ), t.freqSweepEnable = true →
      t.sweepDirection = -1 → t.nextSweepMicros ≤ now2 →
      t.selectedFrequency = (n : ℚ) → -(2 ^ 24) < n → n ≤ 2 ^ 24 →
      (sweepTickF now2 t).selectedFrequency = ((n - 1 : ℤ) : ℚ)) ∧
    (∀ (t : SynthQ) (now2 : Int), t.freqSweepEnable = true →
      t.sweepDirection = -1 → t.nextSweepMicros ≤ now2 →
      t.selectedFrequency = ((-(2 ^ 24) : ℤ) : ℚ) →
      (sweepTickF now2 t).selectedFrequency = t.selectedFrequency) ∧
    (∀ (now2 : Int) (nows : List Int),
      (cmdSweepF now (m : ℚ) (m : ℚ) d0 d1 s).nextSweepMicros ≤ now2 →
      (nows.foldl (fun a u => sweepTickF u a)
          (sweepTickF now2 (cmdSweepF now (m : ℚ) (m : ℚ) d0 d1 s))).freqSweepEnable
        = true ∧
      (nows.foldl (fun a u => sweepTickF u a)
          (sweepTickF now2 (cmdSweepF now (m : ℚ) (m : ℚ) d0 d1 s))).selectedFrequency
        ≠ (m : ℚ) ∧
      ∃ n : ℤ, -(2 ^ 24) ≤ n ∧ n ≤ m - 1 ∧
        (nows.foldl (fun a u => sweepTickF u a)
            (sweepTickF now2 (cmdSweepF now (m : ℚ) (m : ℚ) d0 d1 s))).selectedFrequency
          = (n : ℚ)) := by
  have hdir : (cmdSweepF now (m : ℚ) (m : ℚ) d0 d1 s).sweepDirection = -1 := by
    show (if (m : ℚ) < (m : ℚ) then (1 : Int) else -1) = -1
    rw [if_neg (lt_irrefl _)]
  have htgt : (cmdSweepF now (m : ℚ) (m : ℚ) d0 d1 s).targetFrequency
      = (m : ℚ) := rfl
  have hfirst : ∀ now2 : Int,
      (cmdSweepF now (m : ℚ) (m : ℚ) d0 d1 s).nextSweepMicros ≤ now2 →
      sweepLockedF m (sweepTickF now2 (cmdSweepF now (m : ℚ) (m : ℚ) d0 d1 s)) ∧
      (sweepTickF now2 (cmdSweepF now (m : ℚ) (m : ℚ) d0 d1 s)).selectedFrequency
        = ((m - 1 : ℤ) : ℚ) := by
    intro now2 hdue2
    have hd := sweepTickF_due _ now2 rfl hdue2
    have hsum : (cmdSweepF now (m : ℚ) (m : ℚ) d0 d1 s).selectedFrequency
        + ((cmdSweepF now (m : ℚ) (m : ℚ) d0 d1 s).sweepDirection : ℚ)
        = ((m - 1 : ℤ) : ℚ) := by
      rw [hdir]
      show (m : ℚ) + ((-1 : ℤ) : ℚ) = ((m - 1 : ℤ) : ℚ)
      push_cast
      ring
    have hround : roundF32 ((cmdSweepF now (m : ℚ) (m : ℚ) d0 d1 s).selectedFrequency
        + ((cmdSweepF now (m : ℚ) (m : ℚ) d0 d1 s).sweepDirection : ℚ))
        = ((m - 1 : ℤ) : ℚ) := by
      rw [hsum]
      exact roundF32_int_fix (m - 1) (by rw [abs_le]; omega)
    have hne : roundF32 ((cmdSweepF now (m : ℚ) (m : ℚ) d0 d1 s).selectedFrequency
        + ((cmdSweepF now (m : ℚ) (m : ℚ) d0 d1 s).sweepDirection : ℚ))
        ≠ (cmdSweepF now (m : ℚ) (m : ℚ) d0 d1 s).targetFrequency := by
      rw [hround, htgt]
      intro hcon
      have hmm : m - 1 = m := by exact_mod_cast hcon
      omega
    obtain ⟨ha2, -, ht2, hd2⟩ := hd.2.2 hne
    exact ⟨⟨ha2, by rw [ht2, htgt], by rw [hd2, hdir], m - 1, by omega,
      le_refl _, by rw [hd.1, hround]⟩, by rw [hd.1, hround]⟩
  refine ⟨hdir, ?_, ?_, ?_, ?_⟩
  · intro now2 hdue2
    exact ⟨(hfirst now2 hdue2).2, (hfirst now2 hdue2).1.1⟩
  · intro t now2 n hact2 hdir2 hdue2 hfreq2 hlo hhi
    have hd := sweepTickF_due t now2 hact2 hdue2
    rw [hd.1, hfreq2, hdir2,
      show (n : ℚ) + ((-1 : ℤ) : ℚ) = ((n - 1 : ℤ) : ℚ) by push_cast; ring]
    exact roundF32_int_fix (n - 1) (by rw [abs_le]; omega)
  · intro t now2 hact2 hdir2 hdue2 hfreq2
    have hd := sweepTickF_due t now2 hact2 hdue2
    rw [hd.1, hfreq2, hdir2,
      show ((-(2 ^ 24) : ℤ) : ℚ) + ((-1 : ℤ) : ℚ) = -(16777217 : ℚ)
        by norm_num,
      roundF32_stall]
    norm_num
  · intro now2 nows hdue2
    have hlock := sweepLockedF_run m hm2 nows _ (hfirst now2 hdue2).1
    obtain ⟨ha, -, -, n, hn1, hn2, hfq⟩ := hlock
    refine ⟨ha, ?_, n, hn1, hn2, hfq⟩
    rw [hfq]
    intro hcon
    have hnm : n = m := by exact_mod_cast hcon
    omega

/-- C9 (witness): the amended float behaviour at start = target = 440 —
direction down, first due tick to 439 with the sweep still active. -/
theorem sweep_equal_start_float_witness :
    (sweepTickF 7 (cmdSweepF 0 ((440 : ℤ) : ℚ) ((440 : ℤ) : ℚ) 7 0
        initQ)).selectedFrequency = ((440 - 1 : ℤ) : ℚ) ∧
    (sweepTickF 7 (cmdSweepF 0 ((440 : ℤ) : ℚ) ((440 : ℤ) : ℚ) 7 0
        initQ)).freqSweepEnable = true :=
  (sweep_equal_start_float 440 (by norm_num) (by norm_num) 0 7 0 initQ).2.1 7
    (by norm_num [cmdSweepF, cmdSweep, initQ])

/-- The engine state after the end-to-end command sequence of the spec's
scenario: `'1'` (enable), `'W'` with value 3, `'A'` with value 1, from
power-on. -/
def c5state : SynthQ := cmdAtari 1 (cmdWave 3 (cmdEnable initQ))

/-- C5 (counterexample): `'W'` with value 3 selects dispatch index
`3 & 0x07 = 3` (`wave_div31div2`), not rule index 2: the first output cycle
advances the registers to `wave_div31div2`'s successor of (1,1), which
differs from rule 2's. -/
theorem pipeline_rule_index_counterexample :
    c5state.selectedWaveform = 3 ∧
    c5state.selectedWaveform &&& 0x07 = 3 ∧
    (soundCycle 0 0 c5state).1.lfsr = wavefns 3 lfsrInit ∧
    wavefns 3 lfsrInit ≠ wavefns 2 lfsrInit ∧
    (soundCycle 0 0 c5state).1.lfsr ≠ wavefns 2 lfsrInit := by
  refine ⟨rfl, rfl, rfl, by decide, by decide⟩

/-- C5 (amended): after `'1'`, `'W'` 3, `'A'` 1 the chip is enabled with the
Atari generator on and noise off, and — sweep inactive — every output cycle
takes the Atari branch only: it emits exactly one `tia_out` sample of rule
index 3 (the selector 3 masked by `& 0x07`; *not* rule index 2), held for
the half-period `delayUs` of the still-default 440 Hz frequency (1136 µs);
the noise and plain-square paths are not taken. -/
theorem pipeline_rule3_output (now : Int) (rnd : Nat) :
    c5state.chipEnable = true ∧ c5state.noiseGenEnable = false ∧
    c5state.atariGenEnable = true ∧ c5state.freqSweepEnable = false ∧
    c5state.selectedWaveform = 3 ∧
    c5state.delayUs = recalcFreq 440 ∧ recalcFreq 440 = 1136 ∧
    (∀ s : SynthQ, s.chipEnable = true → s.noiseGenEnable = false →
      s.atariGenEnable = true → s.freqSweepEnable = false →
      soundCycle now rnd s =
        ({ s with lfsr := (tia_out s.selectedWaveform s.lfsr).2 },
          OutEvent.atariSample (tia_out s.selectedWaveform s.lfsr).1
            s.delayUs)) := by
  refine ⟨rfl, rfl, rfl, rfl, rfl, rfl,
    recalcFreq_eq _ _ (by norm_num) (by norm_num), ?_⟩
  intro s hchip hnoise hatari hsweep
  have hid : sweepTick now s = s := by
    unfold sweepTick
    rw [hsweep, if_neg (by simp)]
  unfold soundCycle
  rw [if_pos hchip, hid, if_neg (by rw [hnoise]; simp), if_pos hatari]

/-- C5 (witness): one concrete output cycle of the scenario state. -/
theorem pipeline_rule3_output_witness :
    soundCycle 0 0 c5state =
      ({ c5state with
           lfsr := (tia_out c5state.selectedWaveform c5state.lfsr).2 },
        OutEvent.atariSample
          (tia_out c5state.selectedWaveform c5state.lfsr).1
          c5state.delayUs) :=
  (pipeline_rule3_output 0 0).2.2.2.2.2.2.2 c5state rfl rfl rfl rfl

/-! ### Byte-level protocol decoder (`loop`, lines 98–262)

This second view of the decoder keeps the float variables as their 32-bit
little-endian patterns: the `'F'` and `'S'` handlers only move raw bytes
into a union and reinterpret them, so on patterns they are exact.  The
`byteLong_t` union (lines 67–70) is part of the state: its upper two bytes
are written by nobody.  Decoding that would have to *compare* floats
(`'S'`'s direction choice, line 242) is parameterised by an oracle
`floatLt` standing for the IEEE-754 `<` on the two patterns. -/

/-- The 32-bit word formed from four bytes stored little-endian, exactly as
the `byteFloat_t` union lays them out (byte 0 least significant); each store
into a `byte` truncates to 8 bits. -/
def leWord (b0 b1 b2 b3 : Nat) : Nat :=
  b0 % 256 + 256 * (b1 % 256) + 65536 * (b2 % 256) + 16777216 * (b3 % 256)

/-- The value the `byteLong_t` union reads back through `asLong`: the
little-endian 32-bit word of its four bytes, interpreted as a signed two's
complement `long`. -/
def asLong (b0 b1 b2 b3 : Nat) : Int :=
  if leWord b0 b1 b2 b3 < 2147483648 then (leWord b0 b1 b2 b3 : Int)
  else (leWord b0 b1 b2 b3 : Int) - 4294967296

/-- Decoder-facing engine state with float variables as bit patterns, plus
the persistent bytes of the `convBytesLong` union (the `convBytesFloat`
union is always fully overwritten before being read, so it needs no state).
`recalcCount` counts the `recalcFreq()` calls so that "triggers the timing
recompute" is observable at this level. -/
structure SynthB where
  numBlinks : Int
  chipEnable : Bool
  ledEnable : Bool
  ledState : Bool
  noiseGenEnable : Bool
  atariGenEnable : Bool
  freqSweepEnable : Bool
  selectedWaveform : Nat
  selectedFrequencyBits : Nat
  targetFrequencyBits : Nat
  sweepDelay : Int
  nextSweepMicros : Int
  sweepDirection : Int
  convL0 : Nat
  convL1 : Nat
  convL2 : Nat
  convL3 : Nat
  recalcCount : Nat
deriving DecidableEq, Repr

/-- Power-on decoder state: globals of lines 33–70 (the union, static
storage, is zero-initialised) plus `setup()`'s `recalcFreq()` call;
440.0f is the pattern 0x43DC0000. -/
def initB : SynthB :=
  { numBlinks := 3
    chipEnable := false
    ledEnable := true
    ledState := false
    noiseGenEnable := false
    atariGenEnable := false
    freqSweepEnable := false
    selectedWaveform := 1
    selectedFrequencyBits := 1138491392
    targetFrequencyBits := 1138491392
    sweepDelay := 0
    nextSweepMicros := 0
    sweepDirection := 1
    convL0 := 0
    convL1 := 0
    convL2 := 0
    convL3 := 0
    recalcCount := 1 }

/-- One decoder step (the `TinyWireS.available()` branch of `loop`, lines
98–262): consume the opcode byte and exactly the payload bytes its case
reads, mutate the state as the case does, and return the remaining stream.
`none` models the handler blocking forever on a missing payload byte
(`while (!TinyWireS.available())` with nothing arriving).  Opcode byte
values: `'0'` 48, `'1'` 49, `'L'` 76, `'N'` 78, `'A'` 65, `'W'` 87,
`'F'` 70, `'S'` 83. -/
def stepB (floatLt : Nat → Nat → Bool) (now : Int) (s : SynthB)
    (input : List Nat) : Option (SynthB × List Nat) :=
  match input with
  | [] => none
  | b :: rest =>
    if b = 48 then some ({ s with numBlinks := 1, chipEnable := false }, rest)
    else if b = 49 then
      some ({ s with numBlinks := 1, chipEnable := true }, rest)
    else if b = 76 then
      match rest with
      | [] => none
      | v :: r =>
        if v % 2 = 0 then
          some ({ s with numBlinks := 1, ledEnable := false,
                         ledState := false }, r)
        else some ({ s with numBlinks := 1, ledEnable := true }, r)
    else if b = 78 then
      match rest with
      | [] => none
      | v :: r =>
        some ({ s with numBlinks := 1
                       noiseGenEnable := if v % 2 = 0 then false else true }, r)
    else if b = 65 then
      match rest with
      | [] => none
      | v :: r =>
        some ({ s with numBlinks := 1
                       atariGenEnable := if v % 2 = 0 then false else true }, r)
    else if b = 87 then
      match rest with
      | [] => none
      | v :: r => some ({ s with numBlinks := 1, selectedWaveform := v % 256 }, r)
    else if b = 70 then
      match rest with
      | b0 :: b1 :: b2 :: b3 :: r =>
        some ({ s with numBlinks := 1
                       selectedFrequencyBits := leWord b0 b1 b2 b3
                       recalcCount := s.recalcCount + 1
                       freqSweepEnable := false }, r)
      | _ => none
    else if b = 83 then
      match rest with
      | f0 :: f1 :: f2 :: f3 :: g0 :: g1 :: g2 :: g3 :: d0 :: d1 :: r =>
        some ({ s with numBlinks := 1
                       selectedFrequencyBits := leWord f0 f1 f2 f3
                       targetFrequencyBits := leWord g0 g1 g2 g3
                       convL0 := d0 % 256
                       convL1 := d1 % 256
                       sweepDelay := asLong d0 d1 s.convL2 s.convL3
                       nextSweepMicros := now + asLong d0 d1 s.convL2 s.convL3
                       sweepDirection :=
                         if floatLt (leWord f0 f1 f2 f3) (leWord g0 g1 g2 g3)
                         then 1 else -1
                       recalcCount := s.recalcCount + 1
                       freqSweepEnable := true }, r)
      | _ => none
    else some ({ s with numBlinks := 5 }, rest)

example :
    stepB (fun _ _ => false) 0 initB [70, 0, 0, 220, 67]
      = some ({ initB with numBlinks := 1, recalcCount := 2 }, []) := by decide
example :
    (stepB (fun _ _ => false) 9 initB
        [83, 0, 0, 220, 67, 0, 0, 92, 68, 44, 1]).map (fun p => p.1.sweepDelay)
      = some 300 := by decide

/-- C6: the `'F'` handler consumes exactly its four payload bytes, stores
their little-endian word as the new frequency bit pattern *unchanged* (the
union reinterpretation moves bits only), bumps the recompute counter, and
cancels any active sweep; and any 32-bit float pattern round-trips through
its four little-endian bytes, so an encoded float arrives bit-identical. -/
theorem freq_command_bit_identical (floatLt : Nat → Nat → Bool) (now : Int)
    (s : SynthB) (b0 b1 b2 b3 : Nat) (rest : List Nat) (w : Nat)
    (hw : w < 4294967296) :
    stepB floatLt now s (70 :: b0 :: b1 :: b2 :: b3 :: rest)
      = some ({ s with numBlinks := 1
                       selectedFrequencyBits := leWord b0 b1 b2 b3
                       recalcCount := s.recalcCount + 1
                       freqSweepEnable := false }, rest) ∧
    leWord (w % 256) (w / 256 % 256) (w / 65536 % 256) (w / 16777216 % 256)
      = w := by
  refine ⟨rfl, ?_⟩
  simp only [leWord]
  omega

/-- C6 (witness): the `'F'` path on the four little-endian bytes of 440.0f
(pattern 0x43DC0000 = 1138491392), plus its byte round-trip. -/
theorem freq_command_bit_identical_witness :
    stepB (fun _ _ => false) 0 initB [70, 0, 0, 220, 67]
      = some ({ initB with numBlinks := 1
                           selectedFrequencyBits := leWord 0 0 220 67
                           recalcCount := initB.recalcCount + 1
                           freqSweepEnable := false }, []) ∧
    leWord (1138491392 % 256) (1138491392 / 256 % 256)
      (1138491392 / 65536 % 256) (1138491392 / 16777216 % 256)
      = 1138491392 :=
  freq_command_bit_identical (fun _ _ => false) 0 initB 0 0 220 67 []
    1138491392 (by norm_num)

/-- C7: an opcode byte that is none of `'0' '1' 'L' 'N' 'A' 'W' 'F' 'S'`
consumes no payload byte, changes nothing but the blink counter (set to 5),
and leaves the rest of the stream to be read as fresh opcodes; every
recognised opcode's handler sets the blink counter to 1. -/
theorem unknown_opcode_no_state_change (floatLt : Nat → Nat → Bool)
    (now : Int) (s : SynthB) (b : Nat) (rest : List Nat)
    (hb : b ≠ 48 ∧ b ≠ 49 ∧ b ≠ 76 ∧ b ≠ 78 ∧ b ≠ 65 ∧ b ≠ 87 ∧ b ≠ 70 ∧
      b ≠ 83) :
    stepB floatLt now s (b :: rest) = some ({ s with numBlinks := 5 }, rest) ∧
    (∀ r2 : List Nat, (stepB floatLt now s (48 :: r2)).map
      (fun p => p.1.numBlinks) = some 1) ∧
    (∀ r2 : List Nat, (stepB floatLt now s (49 :: r2)).map
      (fun p => p.1.numBlinks) = some 1) ∧
    (∀ (v : Nat) (r2 : List Nat), (stepB floatLt now s (76 :: v :: r2)).map
      (fun p => p.1.numBlinks) = some 1) ∧
    (∀ (v : Nat) (r2 : List Nat), (stepB floatLt now s (78 :: v :: r2)).map
      (fun p => p.1.numBlinks) = some 1) ∧
    (∀ (v : Nat) (r2 : List Nat), (stepB floatLt now s (65 :: v :: r2)).map
      (fun p => p.1.numBlinks) = some 1) ∧
    (∀ (v : Nat) (r2 : List Nat), (stepB floatLt now s (87 :: v :: r2)).map
      (fun p => p.1.numBlinks) = some 1) ∧
    (∀ (b0 b1 b2 b3 : Nat) (r2 : List Nat),
      (stepB floatLt now s (70 :: b0 :: b1 :: b2 :: b3 :: r2)).map
        (fun p => p.1.numBlinks) = some 1) ∧
    (∀ (f0 f1 f2 f3 g0 g1 g2 g3 d0 d1 : Nat) (r2 : List Nat),
      (stepB floatLt now s
          (83 :: f0 :: f1 :: f2 :: f3 :: g0 :: g1 :: g2 :: g3 :: d0 :: d1 ::
            r2)).map
        (fun p => p.1.numBlinks) = some 1) := by
  obtain ⟨h0, h1, hL, hN, hA, hW, hF, hS⟩ := hb
  refine ⟨?_, fun r2 => rfl, fun r2 => rfl, ?_, fun v r2 => rfl,
    fun v r2 => rfl, fun v r2 => rfl, fun b0 b1 b2 b3 r2 => rfl,
    fun f0 f1 f2 f3 g0 g1 g2 g3 d0 d1 r2 => rfl⟩
  · simp only [stepB]
    rw [if_neg h0, if_neg h1, if_neg hL, if_neg hN, if_neg hA, if_neg hW,
      if_neg hF, if_neg hS]
  · intro v r2
    by_cases hv : v % 2 = 0
    · simp only [stepB, if_pos hv]
      rfl
    · simp only [stepB, if_neg hv]
      rfl

/-- C7 (witness): the unknown opcode 66 (`'B'`) on the power-on state. -/
theorem unknown_opcode_no_state_change_witness :
    stepB (fun _ _ => false) 0 initB [66]
      = some ({ initB with numBlinks := 5 }, []) :=
  (unknown_opcode_no_state_change (fun _ _ => false) 0 initB 66 []
    (by norm_num)).1

/-- The upper two bytes of the `byteLong_t` conversion union hold zero. -/
def convHiZero (s : SynthB) : Prop := s.convL2 = 0 ∧ s.convL3 = 0

/-- C10: the union's upper bytes start zero-initialised and no handler ever
writes them, so the `'S'` handler's decoded `sweepDelay` is exactly the
unsigned little-endian value of its two interval payload bytes, always in
`[0, 65535]`. -/
theorem sweep_delay_sixteen_bit :
    convHiZero initB ∧
    (∀ (floatLt : Nat → Nat → Bool) (now : Int) (s : SynthB)
        (input : List Nat) (s2 : SynthB) (rest2 : List Nat), convHiZero s →
        stepB floatLt now s input = some (s2, rest2) → convHiZero s2) ∧
    (∀ (floatLt : Nat → Nat → Bool) (now : Int) (s : SynthB)
        (f0 f1 f2 f3 g0 g1 g2 g3 d0 d1 : Nat) (rest : List Nat),
      convHiZero s →
      (stepB floatLt now s
          (83 :: f0 :: f1 :: f2 :: f3 :: g0 :: g1 :: g2 :: g3 :: d0 :: d1 ::
            rest)).map (fun p => p.1.sweepDelay)
        = some (((d0 % 256 : Nat) : Int) + 256 * ((d1 % 256 : Nat) : Int)) ∧
      (0 : Int) ≤ ((d0 % 256 : Nat) : Int) + 256 * ((d1 % 256 : Nat) : Int) ∧
      ((d0 % 256 : Nat) : Int) + 256 * ((d1 % 256 : Nat) : Int) ≤ 65535) := by
  refine ⟨⟨rfl, rfl⟩, ?_, ?_⟩
  · intro floatLt now s input s2 rest2 hs hst
    obtain ⟨hs2, hs3⟩ := hs
    unfold stepB at hst
    repeat' split at hst
    all_goals
      first
        | exact Option.noConfusion hst
        | (rw [Option.some.injEq, Prod.mk.injEq] at hst
           obtain ⟨heq, -⟩ := hst
           subst heq
           exact ⟨hs2, hs3⟩)
  · intro floatLt now s f0 f1 f2 f3 g0 g1 g2 g3 d0 d1 rest hs
    obtain ⟨hs2, hs3⟩ := hs
    have hdelay : asLong d0 d1 s.convL2 s.convL3
        = ((d0 % 256 : Nat) : Int) + 256 * ((d1 % 256 : Nat) : Int) := by
      rw [hs2, hs3]
      have hlt : leWord d0 d1 0 0 < 2147483648 := by
        simp only [leWord]
        omega
      rw [asLong, if_pos hlt]
      simp only [leWord]
      push_cast
      omega
    refine ⟨?_, by positivity, ?_⟩
    · show some (asLong d0 d1 s.convL2 s.convL3) = _
      rw [hdelay]
    · have h0 : ((d0 % 256 : Nat) : Int) ≤ 255 := by
        have := Nat.mod_lt d0 (show 0 < 256 by norm_num)
        omega
      have h1 : ((d1 % 256 : Nat) : Int) ≤ 255 := by
        have := Nat.mod_lt d1 (show 0 < 256 by norm_num)
        omega
      omega

/-- C10 (witness): the invariant holds at power-on and the `'S'` decode of
interval bytes 44, 1 yields 300 = 44 + 256. -/
theorem sweep_delay_sixteen_bit_witness :
    (stepB (fun _ _ => false) 9 initB
        [83, 0, 0, 220, 67, 0, 0, 92, 68, 44, 1]).map (fun p => p.1.sweepDelay)
      = some (((44 % 256 : Nat) : Int) + 256 * ((1 % 256 : Nat) : Int)) :=
  (sweep_delay_sixteen_bit.2.2 (fun _ _ => false) 9 initB 0 0 220 67 0 0 92 68
    44 1 [] sweep_delay_sixteen_bit.1).1
example : (cmdSweep 95 440 (881 / 2) 5 0 initQ).nextSweepMicros = 100 := by
  norm_num [cmdSweep, initQ]
example :
    (sweepTick 100 (cmdSweep 95 440 (881 / 2) 5 0 initQ)).selectedFrequency
      = 441 := by
  norm_num [sweepTick, cmdSweep, initQ]

end SlaveSynth
